import Mathlib

/-!
Shallow embedding of the `pyscripts` package (files `deps.py`, `display.py`
and `core.py`) together with theorems about its behaviour.

Filesystem paths are modelled as lists of components of a normalized
absolute path (the output of `os.path.abspath`: no `..` and no `.`
components).  The dynamic loading performed by `direct_dependencies` is
abstracted by an explicit direct-dependency function `dd`; the `while`
loop of `dependencies` is modelled with an explicit fuel parameter
together with a proof that a sufficient amount of fuel makes the loop
reach its fixed point, which is the termination argument for the real
loop.
-/

namespace Pyscripts

/-- Components of a normalized absolute filesystem path. -/
abbrev Path : Type := List String

/-- Render a path as the string interpolated into error messages. -/
def pathToString (p : Path) : String :=
  "/" ++ String.intercalate "/" p

/-- One expansion round of the resolver:
`new_deps = set(itertools.chain.from_iterable(pool.map(bound, diff)))`
in `deps.py` (line 74), where `bound` is `direct_dependencies` with the
package name and `abspath=True` fixed. -/
def expandRound {α : Type} [DecidableEq α] (dd : α → Finset α)
    (diff : Finset α) : Finset α :=
  diff.biUnion dd

/-- The `while diff:` loop of `dependencies` (`deps.py`, lines 68-78):
`diff = new_deps - deps; deps.update(diff)`.  The loop of the source has
no fuel; the fuel parameter makes the recursion structural, and
`depsLoop_isSome` below proves that any fuel past the size of the finite
universe of package files is enough, so the fuel never runs out. -/
def depsLoop {α : Type} [DecidableEq α] (dd : α → Finset α) :
    Nat → Finset α → Finset α → Option (Finset α)
  | 0, _, _ => none
  | fuel + 1, deps, diff =>
    if diff.Nonempty then
      depsLoop dd fuel (deps ∪ (expandRound dd diff \ deps)) (expandRound dd diff \ deps)
    else
      some deps

/-- Length of the longest common prefix of two component lists; this is
what `os.path.relpath` computes when it compares the components of
`abspath(path)` and `abspath(start)`. -/
def commonPrefixLen : List String → List String → Nat
  | a :: as, b :: bs => if a = b then commonPrefixLen as bs + 1 else 0
  | _, _ => 0

/-- `os.path.relpath(path, start)` on component lists: climb out of the
non-shared part of `start` with `..` components, then descend into the
non-shared part of `path`. -/
def relpath (path start : Path) : List String :=
  let i := commonPrefixLen path start
  List.replicate (start.length - i) ".." ++ path.drop i

/-- Joining a directory with a relative component list and normalizing the
result (`os.path.normpath(os.path.join(dir, rel))`): a `..` component
removes the last component accumulated so far, any other component is
appended. -/
def joinNorm (dir : Path) (rel : List String) : Path :=
  rel.foldl (fun acc c => if c = ".." then acc.dropLast else acc ++ [c]) dir

/-- A loaded module as seen through `inspect.getmodule`: its qualified
name (`mod.__name__`) and the path of its source file (`mod.__file__`). -/
structure PyModule where
  name : String
  file : Path
deriving DecidableEq

/-- `_relative_deps(pyfile, deps)` (`deps.py`, lines 151-167): rewrite
every dependency as a path relative to the directory of `pyfile`, which
is `os.path.dirname(os.path.abspath(pyfile))`, i.e. the absolute path of
`pyfile` with its last component removed. -/
def relativeDeps (pyfile : Path) (deps : Finset Path) : Finset Path :=
  deps.image (fun d => relpath d pyfile.dropLast)

/-- `direct_dependencies(pyfile, pkg_name, abspath)` (`deps.py`, lines
86-121) after the file has been loaded.  The result of the load-and-inspect
step (`importlib` loading plus `inspect.getmembers`) is modelled by the
list `members` of pairs of a bound name and the module defining its value
(`inspect.getmodule(m)`, which can be `None`).  The loop records
`mod.__file__` whenever `mod is not None and mod.__name__.startswith(pkg_name)`. -/
def direct_dependencies (members : List (String × Option PyModule))
    (pkg_name : String) (pyfile : Path) (abspath : Bool) : Finset Path :=
  let deps := members.foldl
    (fun s nm =>
      match nm.2 with
      | some mod => if pkg_name.isPrefixOf mod.name then insert mod.file s else s
      | none => s)
    (∅ : Finset Path)
  if abspath then deps else relativeDeps pyfile deps

/-- State of the child process spawned by `dependencies`: the messages it
placed on its end of the pipe, the shared exception event, and whether it
closed the pipe before exiting. -/
structure ChildRun where
  deps_sent : List (Finset Path)
  flag : Bool
  pipe_closed : Bool
deriving DecidableEq

/-- `_parallelize_deps(pyfile, pkg_name, abspath, pipe, except_event)`
(`deps.py`, lines 124-148).  The outcome of the
`direct_dependencies(pyfile, pkg_name, abspath)` call inside the `try`
block is the argument `extract`: `Except.ok` with its value when the load
succeeds, `Except.error` when it raises.  `deps` starts as the empty
list, the bare `except` sets the event, and the `finally` block sends
`deps` and closes the pipe on every path. -/
def parallelize_deps (extract : Except Unit (Finset Path)) : ChildRun :=
  let state :=
    match extract with
    | Except.ok d => (d, false)
    | Except.error _ => ((∅ : Finset Path), true)
  { deps_sent := [state.1], flag := state.2, pipe_closed := true }

/-- Message of the `RuntimeError` raised by `dependencies` when the
exception event is set:
`'Problems found obtaining the dependencies for file "{}"'.format(pyfile)`. -/
def depsErrorMsg (pyfile : Path) : String :=
  "Problems found obtaining the dependencies for file \"" ++
    pathToString pyfile ++ "\""

instance {ε α : Type} [DecidableEq ε] [DecidableEq α] : DecidableEq (Except ε α) :=
  fun a b =>
    match a, b with
    | Except.ok x, Except.ok y =>
      if h : x = y then isTrue (by rw [h]) else isFalse (fun hc => h (Except.ok.inj hc))
    | Except.error x, Except.error y =>
      if h : x = y then isTrue (by rw [h]) else isFalse (fun hc => h (Except.error.inj hc))
    | Except.ok _, Except.error _ => isFalse (by intro hc; cases hc)
    | Except.error _, Except.ok _ => isFalse (by intro hc; cases hc)

/-- `dependencies(pyfile, pkg_name, abspath, pool_size)` (`deps.py`, lines
28-83).  The seed probe in the child process is `parallelize_deps extract`
with `extract` the outcome of loading `pyfile`; `parent.recv()` reads the
single message from the pipe; if the exception event is set a
`RuntimeError` naming `pyfile` is raised before the expansion loop runs.
Otherwise the loop `depsLoop` expands the seed set with the
direct-dependency function `dd` (which stands for
`direct_dependencies(., pkg_name, abspath=True)`), and with `abspath`
unset the final set is rewritten by `_relative_deps`.  A `none` result
only means the fuel was insufficient. -/
def dependencies (pyfile : Path) (extract : Except Unit (Finset Path))
    (dd : Path → Finset Path) (abspath : Bool) (fuel : Nat) :
    Option (Except String (Finset Path)) :=
  let child := parallelize_deps extract
  let deps := (child.deps_sent.head?).getD ∅
  if child.flag then
    some (Except.error (depsErrorMsg pyfile))
  else
    (depsLoop dd fuel deps deps).map
      (fun r => Except.ok (if abspath then r else relativeDeps pyfile r))

/-- Where a standard-stream file descriptor currently points: either a
console device (identified by a number) or the temporary file created by
`redirect_stdstream`. -/
inductive StreamTarget
  | console (fd : Nat)
  | tempfile
deriving DecidableEq

/-- Targets of the `sys.stdout` and `sys.stderr` file descriptors.  After
`_redirect` creates a new `io.TextIOWrapper` over the redirected
descriptor, the stream object and its descriptor point to the same
target, so one target per stream describes both. -/
structure SysStreams where
  stdout_target : StreamTarget
  stderr_target : StreamTarget
deriving DecidableEq

/-- Target of `getattr(sys, istream)`. -/
def getTarget (s : SysStreams) (istream : String) : StreamTarget :=
  if istream = "stdout" then s.stdout_target else s.stderr_target

/-- Effect of `_redirect(to_fd, istream)` (`display.py`, lines 123-140):
the descriptor of the selected stream is `dup2`-ed onto the target of
`to_fd`, and a fresh `sys.<istream>` is created over it. -/
def setTarget (s : SysStreams) (istream : String) (t : StreamTarget) : SysStreams :=
  if istream = "stdout" then { s with stdout_target := t }
  else { s with stderr_target := t }

/-- How a `with redirect_stdstream(...)` block finished: normally, with
the `ValueError` of the argument checks, or with the exception raised by
the body of the block propagating out. -/
inductive RSOutcome
  | ok
  | valueError
  | bodyError
deriving DecidableEq

/-- Observable result of one `with redirect_stdstream(...)` block: the
final stream targets, whether the call-local temporary file and the saved
duplicate descriptor are still open, and how the block finished. -/
structure RSResult where
  streams : SysStreams
  tfile_open : Bool
  saved_open : Bool
  outcome : RSOutcome
deriving DecidableEq

/-- `redirect_stdstream(istream, ostream, stream_type)` (`display.py`,
lines 26-165) run as a context around a body that raises exactly when
`body_raises` is true.  The two argument checks precede every
redirection.  On the valid path the current target is saved
(`os.dup`), the stream is redirected to the temporary file, and then:
if the body returns, the stream is redirected back to the saved target
and the `finally` block closes the temporary file and the saved
descriptor; if the body raises, execution continues directly with the
`finally` block, so the redirection back never happens. -/
def redirect_stdstream (istream : String) (stream_type : String)
    (body_raises : Bool) (s : SysStreams) : RSResult :=
  if ¬ (istream = "stdout" ∨ istream = "stderr") then
    { streams := s, tfile_open := false, saved_open := false,
      outcome := RSOutcome.valueError }
  else if ¬ (stream_type = "t" ∨ stream_type = "b") then
    { streams := s, tfile_open := false, saved_open := false,
      outcome := RSOutcome.valueError }
  else
    let saved := getTarget s istream
    let s1 := setTarget s istream StreamTarget.tempfile
    if body_raises then
      { streams := s1, tfile_open := false, saved_open := false,
        outcome := RSOutcome.bodyError }
    else
      { streams := setTarget s1 istream saved, tfile_open := false,
        saved_open := false, outcome := RSOutcome.ok }

/-- One call through the wrapper created by `run_once` (`core.py`, lines
40-62, and the identical copy in `deps.py`, lines 170-192).  The input is
the current value of `wrapper.has_run`; the output is the value the call
returns (`None` is `none`), the new value of `wrapper.has_run`, and the
number of times the wrapped function was invoked during the call. -/
def run_once_step {ρ : Type} (f : Unit → ρ) (has_run : Bool) :
    Option ρ × Bool × Nat :=
  if has_run = false then (some (f ()), true, 1) else (none, has_run, 0)

/-- A sequence of `n` calls through the `run_once` wrapper starting from
the given `has_run` value: the list of returned values in order, the final
`has_run` value, and the total number of invocations of the wrapped
function. -/
def run_once_trace {ρ : Type} (f : Unit → ρ) :
    Nat → Bool → List (Option ρ) × Bool × Nat
  | 0, st => ([], st, 0)
  | n + 1, st =>
    let s := run_once_step f st
    let t := run_once_trace f n s.2.1
    (s.1 :: t.1, t.2.1, s.2.2 + t.2.2)

/-- Concrete direct-dependency function used to evaluate the resolver on
a small example: `main.py` depends on `pkg/m1.py`, which depends on
`pkg/m2.py`, which depends on nothing. -/
def sampleDD : Path → Finset Path := fun p =>
  if p = ["root", "main.py"] then {["root", "pkg", "m1.py"]}
  else if p = ["root", "pkg", "m1.py"] then {["root", "pkg", "m2.py"]}
  else ∅

/-- Finite universe of package files for the small example: every value
of `sampleDD` is contained in it. -/
def sampleU : Finset Path :=
  {["root", "pkg", "m1.py"], ["root", "pkg", "m2.py"]}

section LoopLemmas

variable {α : Type} [DecidableEq α]

theorem depsLoop_subset (dd : α → Finset α) :
    ∀ (fuel : Nat) (deps diff r : Finset α),
      depsLoop dd fuel deps diff = some r → deps ⊆ r := by
  intro fuel
  induction fuel with
  | zero => intro deps diff r h; simp [depsLoop] at h
  | succ n ih =>
    intro deps diff r h
    rw [depsLoop] at h
    split at h
    · exact fun x hx => ih _ _ _ h (Finset.mem_union_left _ hx)
    · cases h
      exact Finset.Subset.refl _

theorem depsLoop_closed (dd : α → Finset α) :
    ∀ (fuel : Nat) (deps diff r : Finset α),
      (∀ x ∈ deps, x ∈ diff ∨ dd x ⊆ deps) →
      depsLoop dd fuel deps diff = some r →
      ∀ x ∈ r, dd x ⊆ r := by
  intro fuel
  induction fuel with
  | zero => intro deps diff r _ h; simp [depsLoop] at h
  | succ n ih =>
    intro deps diff r hinv h
    rw [depsLoop] at h
    split at h
    · refine ih _ _ _ ?_ h
      intro x hx
      rcases Finset.mem_union.mp hx with hx | hx
      · rcases hinv x hx with hx2 | hx2
        · right
          intro y hy
          by_cases hyd : y ∈ deps
          · exact Finset.mem_union_left _ hyd
          · refine Finset.mem_union_right _ (Finset.mem_sdiff.mpr ⟨?_, hyd⟩)
            exact Finset.mem_biUnion.mpr ⟨x, hx2, hy⟩
        · exact Or.inr (fun y hy => Finset.mem_union_left _ (hx2 hy))
      · exact Or.inl hx
    · rename_i hne
      cases h
      intro x hx
      rcases hinv x hx with hx2 | hx2
      · exact absurd ⟨x, hx2⟩ hne
      · exact hx2

theorem depsLoop_sound (dd : α → Finset α) (R : α → Prop)
    (hR : ∀ x y, R x → y ∈ dd x → R y) :
    ∀ (fuel : Nat) (deps diff r : Finset α),
      (∀ x ∈ deps, R x) → (∀ x ∈ diff, R x) →
      depsLoop dd fuel deps diff = some r →
      ∀ x ∈ r, R x := by
  intro fuel
  induction fuel with
  | zero => intro deps diff r _ _ h; simp [depsLoop] at h
  | succ n ih =>
    intro deps diff r hdeps hdiff h
    rw [depsLoop] at h
    split at h
    · have hnew : ∀ x ∈ expandRound dd diff \ deps, R x := by
        intro x hx
        rcases Finset.mem_biUnion.mp (Finset.mem_sdiff.mp hx).1 with ⟨y, hy, hxy⟩
        exact hR y x (hdiff y hy) hxy
      refine ih _ _ _ ?_ hnew h
      intro x hx
      rcases Finset.mem_union.mp hx with hx | hx
      · exact hdeps x hx
      · exact hnew x hx
    · cases h
      exact hdeps

theorem depsLoop_isSome (dd : α → Finset α) (U : Finset α)
    (hU : ∀ x, dd x ⊆ U) :
    ∀ (fuel : Nat) (deps diff : Finset α),
      (U \ deps).card + 2 ≤ fuel →
      (depsLoop dd fuel deps diff).isSome = true := by
  intro fuel
  induction fuel with
  | zero => intro deps diff hle; omega
  | succ n ih =>
    intro deps diff hle
    rw [depsLoop]
    split
    · rename_i hne
      by_cases hdone : (expandRound dd diff \ deps).Nonempty
      · have hsub : expandRound dd diff \ deps ⊆ U \ deps := by
          intro x hx
          rcases Finset.mem_sdiff.mp hx with ⟨hx1, hx2⟩
          rcases Finset.mem_biUnion.mp hx1 with ⟨y, _, hxy⟩
          exact Finset.mem_sdiff.mpr ⟨hU y hxy, hx2⟩
        have hcard : (U \ (deps ∪ (expandRound dd diff \ deps))).card
            < (U \ deps).card := by
          have heq : U \ (deps ∪ (expandRound dd diff \ deps))
              = (U \ deps) \ (expandRound dd diff \ deps) := by
            ext x
            simp only [Finset.mem_sdiff, Finset.mem_union]
            tauto
          rw [heq]
          exact Finset.card_lt_card (Finset.sdiff_ssubset hsub hdone)
        exact ih _ _ (by omega)
      · rw [Finset.not_nonempty_iff_eq_empty] at hdone
        obtain ⟨m, rfl⟩ : ∃ m, n = m + 1 := ⟨n - 1, by omega⟩
        rw [hdone, depsLoop]
        simp
    · simp

end LoopLemmas

section PathLemmas

theorem commonPrefixLen_decomp :
    ∀ path start : List String,
      ∃ c p2 s2 : List String,
        path = c ++ p2 ∧ start = c ++ s2 ∧
        c.length = commonPrefixLen path start := by
  intro path
  induction path with
  | nil =>
    intro start
    exact ⟨[], [], start, rfl, rfl, by cases start <;> simp [commonPrefixLen]⟩
  | cons a as ih =>
    intro start
    cases start with
    | nil => exact ⟨[], a :: as, [], rfl, rfl, by simp [commonPrefixLen]⟩
    | cons b bs =>
      by_cases hab : a = b
      · rcases ih bs with ⟨c, p2, s2, h1, h2, h3⟩
        subst hab
        exact ⟨a :: c, p2, s2, by simp [h1], by simp [h2],
          by simp [commonPrefixLen, h3]⟩
      · exact ⟨[], a :: as, b :: bs, rfl, rfl, by simp [commonPrefixLen, hab]⟩

theorem joinNorm_append (dir : Path) (l1 l2 : List String) :
    joinNorm dir (l1 ++ l2) = joinNorm (joinNorm dir l1) l2 := by
  simp [joinNorm, List.foldl_append]

theorem joinNorm_replicate_up :
    ∀ s2 c : List String,
      joinNorm (c ++ s2) (List.replicate s2.length "..") = c := by
  intro s2
  induction s2 using List.reverseRecOn with
  | nil => intro c; simp [joinNorm]
  | append_singleton s2 y ih =>
    intro c
    have hlen : (s2 ++ [y]).length = s2.length + 1 := by simp
    rw [hlen, List.replicate_succ]
    show joinNorm (c ++ (s2 ++ [y])) (".." :: List.replicate s2.length "..") = c
    have hdrop : ((c ++ (s2 ++ [y])).dropLast) = c ++ s2 := by
      rw [← List.append_assoc]
      exact List.dropLast_concat
    simp only [joinNorm, List.foldl_cons, if_pos rfl]
    rw [hdrop]
    exact ih c

theorem joinNorm_no_up (l : List String) (hl : ".." ∉ l) :
    ∀ dir : Path, joinNorm dir l = dir ++ l := by
  induction l with
  | nil => intro dir; simp [joinNorm]
  | cons a as ih =>
    intro dir
    have ha : a ≠ ".." := fun h => hl (by simp [h])
    have has : ".." ∉ as := fun h => hl (by simp [h])
    simp only [joinNorm, List.foldl_cons, if_neg ha]
    have := ih has (dir ++ [a])
    simp only [joinNorm] at this
    rw [this, List.append_assoc]
    rfl

/-- Round trip of `os.path.relpath` and path joining: joining the
directory with the relative path reproduces the original absolute path,
provided the original path is normalized (contains no `..` component). -/
theorem joinNorm_relpath (path start : Path) (hp : ".." ∉ path) :
    joinNorm start (relpath path start) = path := by
  rcases commonPrefixLen_decomp path start with ⟨c, p2, s2, h1, h2, h3⟩
  have hdrop : path.drop (commonPrefixLen path start) = p2 := by
    rw [← h3, h1]
    exact List.drop_left c p2
  have hlen : start.length - commonPrefixLen path start = s2.length := by
    rw [← h3, h2]
    simp
  rw [relpath]
  show joinNorm start
      (List.replicate (start.length - commonPrefixLen path start) ".." ++
        path.drop (commonPrefixLen path start)) = path
  rw [hdrop, hlen, joinNorm_append, h2, joinNorm_replicate_up]
  have hp2 : ".." ∉ p2 := by
    intro h
    exact hp (by rw [h1]; exact List.mem_append_right _ h)
  rw [joinNorm_no_up p2 hp2, h1]

end PathLemmas

section DepsLemmas

theorem dependencies_ok_eq (pyfile : Path) (d : Finset Path)
    (dd : Path → Finset Path) (abspath : Bool) (fuel : Nat) :
    dependencies pyfile (Except.ok d) dd abspath fuel
      = (depsLoop dd fuel d d).map
          (fun r => Except.ok (if abspath then r else relativeDeps pyfile r)) := rfl

theorem direct_dependencies_fold_mem (pkg_name : String) (f : Path) :
    ∀ (members : List (String × Option PyModule)) (s : Finset Path),
      (f ∈ members.foldl
        (fun s nm =>
          match nm.2 with
          | some mod => if pkg_name.isPrefixOf mod.name then insert mod.file s else s
          | none => s) s
        ↔ f ∈ s ∨ ∃ n mod, (n, some mod) ∈ members ∧
            pkg_name.isPrefixOf mod.name = true ∧ mod.file = f) := by
  intro members
  induction members with
  | nil => simp
  | cons nm rest ih =>
    intro s
    rcases nm with ⟨n, m⟩
    cases m with
    | none =>
      rw [List.foldl_cons]
      simp only [ih]
      constructor
      · rintro (h | ⟨n2, mod2, h1, h2, h3⟩)
        · exact Or.inl h
        · exact Or.inr ⟨n2, mod2, List.mem_cons_of_mem _ h1, h2, h3⟩
      · rintro (h | ⟨n2, mod2, h1, h2, h3⟩)
        · exact Or.inl h
        · rcases List.mem_cons.mp h1 with h1 | h1
          · cases h1
          · exact Or.inr ⟨n2, mod2, h1, h2, h3⟩
    | some mod =>
      rw [List.foldl_cons]
      simp only [ih]
      by_cases hpre : pkg_name.isPrefixOf mod.name
      · rw [if_pos hpre]
        constructor
        · rintro (h | ⟨n2, mod2, h1, h2, h3⟩)
          · rcases Finset.mem_insert.mp h with h | h
            · exact Or.inr ⟨n, mod, List.mem_cons_self _ _, hpre, h.symm⟩
            · exact Or.inl h
          · exact Or.inr ⟨n2, mod2, List.mem_cons_of_mem _ h1, h2, h3⟩
        · rintro (h | ⟨n2, mod2, h1, h2, h3⟩)
          · exact Or.inl (Finset.mem_insert_of_mem h)
          · rcases List.mem_cons.mp h1 with h1 | h1
            · cases Option.some.inj (congrArg Prod.snd h1)
              exact Or.inl (Finset.mem_insert.mpr (Or.inl h3.symm))
            · exact Or.inr ⟨n2, mod2, h1, h2, h3⟩
      · rw [if_neg hpre]
        constructor
        · rintro (h | ⟨n2, mod2, h1, h2, h3⟩)
          · exact Or.inl h
          · exact Or.inr ⟨n2, mod2, List.mem_cons_of_mem _ h1, h2, h3⟩
        · rintro (h | ⟨n2, mod2, h1, h2, h3⟩)
          · exact Or.inl h
          · rcases List.mem_cons.mp h1 with h1 | h1
            · cases Option.some.inj (congrArg Prod.snd h1)
              exact absurd h2 hpre
            · exact Or.inr ⟨n2, mod2, h1, h2, h3⟩

end DepsLemmas

section DisplayLemmas

theorem setTarget_getTarget (s : SysStreams) (istream : String)
    (t : StreamTarget) :
    setTarget (setTarget s istream t) istream (getTarget s istream) = s := by
  by_cases h : istream = "stdout" <;> simp [setTarget, getTarget, h]

end DisplayLemmas

section CoreLemmas

theorem run_once_trace_spent {ρ : Type} (f : Unit → ρ) :
    ∀ n : Nat, run_once_trace f n true = (List.replicate n none, true, 0) := by
  intro n
  induction n with
  | zero => rfl
  | succ m ih => simp [run_once_trace, run_once_step, ih, List.replicate_succ]

end CoreLemmas

theorem dependencies_error_eq (pyfile : Path) (e : Unit)
    (dd : Path → Finset Path) (abspath : Bool) (fuel : Nat) :
    dependencies pyfile (Except.error e) dd abspath fuel
      = some (Except.error (depsErrorMsg pyfile)) := rfl

section Claims

/-- Claim C1: for every file and package name for which the seed probe
succeeds, `dependencies` returns exactly the transitive closure of the
direct-dependency relation: the result contains every direct dependency
of the file, no member of the result has a direct dependency that is not
also in the result, and membership in the result is exactly reachability
from the file through at least one direct-dependency step. -/
theorem dependencies_transitive_closure (pyfile : Path)
    (extract : Except Unit (Finset Path)) (dd : Path → Finset Path)
    (fuel : Nat) (r : Finset Path)
    (hex : extract = Except.ok (dd pyfile))
    (h : dependencies pyfile extract dd true fuel = some (Except.ok r)) :
    dd pyfile ⊆ r ∧ (∀ x ∈ r, dd x ⊆ r) ∧
      ∀ x, x ∈ r ↔ Relation.TransGen (fun a b => b ∈ dd a) pyfile x := by
  subst hex
  rw [dependencies_ok_eq] at h
  cases hdl : depsLoop dd fuel (dd pyfile) (dd pyfile) with
  | none => rw [hdl] at h; cases h
  | some r0 =>
    rw [hdl] at h
    simp only [Option.map_some', Option.some.injEq, Except.ok.injEq, if_true] at h
    subst h
    have hsub := depsLoop_subset dd fuel _ _ _ hdl
    have hcl := depsLoop_closed dd fuel _ _ _ (fun x hx => Or.inl hx) hdl
    refine ⟨hsub, hcl, fun x => ⟨?_, ?_⟩⟩
    · intro hx
      exact depsLoop_sound dd (Relation.TransGen (fun a b => b ∈ dd a) pyfile)
        (fun a b ha hb => Relation.TransGen.tail ha hb) fuel _ _ _
        (fun y hy => Relation.TransGen.single hy)
        (fun y hy => Relation.TransGen.single hy) hdl x hx
    · intro hx
      induction hx with
      | single hstep => exact hsub hstep
      | tail _ hstep ih => exact hcl _ ih hstep

theorem dependencies_transitive_closure_witness :
    (["root", "pkg", "m2.py"] : Path)
        ∈ ({["root", "pkg", "m1.py"], ["root", "pkg", "m2.py"]} : Finset Path)
      ↔ Relation.TransGen (fun a b => b ∈ sampleDD a)
          ["root", "main.py"] ["root", "pkg", "m2.py"] :=
  (dependencies_transitive_closure ["root", "main.py"]
      (Except.ok (sampleDD ["root", "main.py"])) sampleDD 5
      {["root", "pkg", "m1.py"], ["root", "pkg", "m2.py"]}
      rfl (by decide)).2.2 ["root", "pkg", "m2.py"]

/-- Claim C2: for every seed file whose load raises inside the isolated
child process, `dependencies` delivers exactly one dependency resolution
error, a `RuntimeError` whose message names the seed file, and no
dependency set. -/
theorem dependencies_seed_failure (pyfile : Path) (e : Unit)
    (dd : Path → Finset Path) (abspath : Bool) (fuel : Nat) :
    dependencies pyfile (Except.error e) dd abspath fuel
      = some (Except.error
          ("Problems found obtaining the dependencies for file \"" ++
            pathToString pyfile ++ "\"")) := rfl

/-- Claim C3, counterexample: running `redirect_stdstream` around a body
that raises does not restore the stream target; the standard output
descriptor is left pointing at the temporary file when the scope exits. -/
theorem redirect_not_restored_on_error :
    ¬ ((redirect_stdstream "stdout" "t" true
          { stdout_target := StreamTarget.console 1,
            stderr_target := StreamTarget.console 2 }).streams
        = { stdout_target := StreamTarget.console 1,
            stderr_target := StreamTarget.console 2 }) := by decide

/-- Claim C3, amended: `redirect_stdstream` restores the selected stream
and its descriptor to the original target whenever the body of the scope
does not raise (closing the temporary file and the saved descriptor); if
the body raises, only the two call-local files are closed and the
redirection is left in place. -/
theorem redirect_restored_without_error (s : SysStreams)
    (istream stream_type : String)
    (hi : istream = "stdout" ∨ istream = "stderr")
    (ht : stream_type = "t" ∨ stream_type = "b") :
    redirect_stdstream istream stream_type false s
      = { streams := s, tfile_open := false, saved_open := false,
          outcome := RSOutcome.ok } := by
  rw [redirect_stdstream, if_neg (not_not_intro hi), if_neg (not_not_intro ht)]
  simp [setTarget_getTarget]

theorem redirect_restored_without_error_witness :
    redirect_stdstream "stdout" "t" false
        { stdout_target := StreamTarget.console 1,
          stderr_target := StreamTarget.console 2 }
      = { streams := { stdout_target := StreamTarget.console 1,
                       stderr_target := StreamTarget.console 2 },
          tfile_open := false, saved_open := false,
          outcome := RSOutcome.ok } :=
  redirect_restored_without_error _ _ _ (Or.inl rfl) (Or.inl rfl)

/-- Claim C4: over a finite universe `U` of package files that bounds the
direct-dependency function, the expansion loop of `dependencies`
terminates (the fuel bound `card (U minus known) + 2` is never exhausted,
and the top-level call never returns the fuel-exhaustion marker), and it
halts exactly when the frontier `candidate - known` becomes empty: with
an empty frontier it stops and returns the known set, and with a
non-empty frontier it performs another expansion step. -/
theorem depsLoop_terminates (dd : Path → Finset Path) (U : Finset Path)
    (hU : ∀ x, dd x ⊆ U) :
    (∀ deps diff : Finset Path,
        (depsLoop dd ((U \ deps).card + 2) deps diff).isSome = true)
    ∧ (∀ (pyfile : Path) (d : Finset Path) (abspath : Bool),
        dependencies pyfile (Except.ok d) dd abspath ((U \ d).card + 2) ≠ none)
    ∧ (∀ (fuel : Nat) (deps : Finset Path),
        depsLoop dd (fuel + 1) deps ∅ = some deps)
    ∧ (∀ (fuel : Nat) (deps diff : Finset Path), diff.Nonempty →
        depsLoop dd (fuel + 1) deps diff
          = depsLoop dd fuel (deps ∪ (expandRound dd diff \ deps))
              (expandRound dd diff \ deps)) := by
  refine ⟨fun deps diff => depsLoop_isSome dd U hU _ deps diff le_rfl,
    ?_, ?_, ?_⟩
  · intro pyfile d abspath
    rw [dependencies_ok_eq]
    have hs := depsLoop_isSome dd U hU ((U \ d).card + 2) d d le_rfl
    cases hdl : depsLoop dd ((U \ d).card + 2) d d with
    | none => rw [hdl] at hs; simp at hs
    | some r => simp
  · intro fuel deps
    rw [depsLoop]
    simp
  · intro fuel deps diff hne
    rw [depsLoop, if_pos hne]

theorem depsLoop_terminates_witness :
    (depsLoop sampleDD
        ((sampleU \ {(["root", "pkg", "m1.py"] : Path)}).card + 2)
        {(["root", "pkg", "m1.py"] : Path)}
        {(["root", "pkg", "m1.py"] : Path)}).isSome = true :=
  (depsLoop_terminates sampleDD sampleU
      (by
        intro x
        simp only [sampleDD]
        split
        · decide
        · split
          · decide
          · decide)).1
    {["root", "pkg", "m1.py"]} {["root", "pkg", "m1.py"]}

/-- Claim C5: when resolution succeeds, every path returned with the
relative option, joined with the seed file's directory, is a path
returned with the absolute option, and every absolute path arises this
way (same membership after joining).  The absolute paths are normalized,
so they contain no `..` component. -/
theorem dependencies_relative_abs (pyfile : Path)
    (extract : Except Unit (Finset Path)) (dd : Path → Finset Path)
    (fuel : Nat) (rA rR : Finset Path)
    (hA : dependencies pyfile extract dd true fuel = some (Except.ok rA))
    (hR : dependencies pyfile extract dd false fuel = some (Except.ok rR))
    (hnorm : ∀ d ∈ rA, ".." ∉ d) :
    (∀ q ∈ rR, joinNorm pyfile.dropLast q ∈ rA)
    ∧ (∀ p ∈ rA, ∃ q ∈ rR, joinNorm pyfile.dropLast q = p) := by
  cases extract with
  | error e =>
    rw [dependencies_error_eq] at hA
    cases hA
  | ok d =>
    rw [dependencies_ok_eq] at hA hR
    cases hdl : depsLoop dd fuel d d with
    | none => rw [hdl] at hA; cases hA
    | some r =>
      rw [hdl] at hA hR
      simp only [Option.map_some', Option.some.injEq, Except.ok.injEq,
        if_true, if_false] at hA hR
      subst hA
      subst hR
      constructor
      · intro q hq
        rcases Finset.mem_image.mp hq with ⟨p, hp, hpq⟩
        rw [← hpq, joinNorm_relpath p _ (hnorm p hp)]
        exact hp
      · intro p hp
        exact ⟨relpath p pyfile.dropLast, Finset.mem_image_of_mem _ hp,
          joinNorm_relpath p _ (hnorm p hp)⟩

theorem dependencies_relative_abs_witness :
    joinNorm (List.dropLast ["home", "main.py"]) ["pkg", "a.py"]
      ∈ ({["home", "pkg", "a.py"]} : Finset Path) :=
  (dependencies_relative_abs ["home", "main.py"]
      (Except.ok {["home", "pkg", "a.py"]}) (fun _ => ∅) 3
      {["home", "pkg", "a.py"]} {["pkg", "a.py"]}
      (by decide) (by decide) (by decide)).1
    ["pkg", "a.py"] (by decide)

/-- Claim C6: for every input, the child of the seed probe sends exactly
one message on the channel before exiting (the extracted set on success,
the initial empty collection on failure), closes the pipe, and sets the
shared failure flag if and only if extraction raised. -/
theorem parallelize_deps_protocol :
    ∀ extract : Except Unit (Finset Path),
      (parallelize_deps extract).deps_sent.length = 1
      ∧ (parallelize_deps extract).pipe_closed = true
      ∧ ((parallelize_deps extract).flag = true ↔ ∃ e, extract = Except.error e)
      ∧ (∀ d, extract = Except.ok d → (parallelize_deps extract).deps_sent = [d])
      ∧ (∀ e, extract = Except.error e →
          (parallelize_deps extract).deps_sent = [(∅ : Finset Path)]) := by
  intro extract
  cases extract with
  | ok d =>
    refine ⟨rfl, rfl, ?_, ?_, ?_⟩
    · constructor
      · intro h
        exact Bool.noConfusion h
      · intro h
        rcases h with ⟨e2, he⟩
        exact Except.noConfusion he
    · intro d2 hd
      cases hd
      rfl
    · intro e2 he
      exact Except.noConfusion he
  | error e =>
    refine ⟨rfl, rfl, ?_, ?_, ?_⟩
    · exact ⟨fun _ => ⟨e, rfl⟩, fun _ => rfl⟩
    · intro d2 hd
      exact Except.noConfusion hd
    · intro e2 he
      cases he
      rfl

theorem parallelize_deps_protocol_witness :
    (parallelize_deps (Except.ok ({["x.py"]} : Finset Path))).deps_sent
      = [({["x.py"]} : Finset Path)] :=
  (parallelize_deps_protocol (Except.ok {["x.py"]})).2.2.2.1 {["x.py"]} rfl

/-- Claim C7: for a file that loads successfully, `direct_dependencies`
records a bound value's defining module's file path if and only if that
module's qualified name starts with the package name; modules outside
this namespace are never included. -/
theorem direct_dependencies_pkg_filter (members : List (String × Option PyModule))
    (pkg_name : String) (pyfile : Path) (f : Path) :
    f ∈ direct_dependencies members pkg_name pyfile true
      ↔ ∃ n mod, (n, some mod) ∈ members
          ∧ pkg_name.isPrefixOf mod.name = true ∧ mod.file = f := by
  rw [direct_dependencies]
  simp only [if_true]
  rw [direct_dependencies_fold_mem]
  simp

/-- Claim C8: two runs of `dependencies` over the same inputs return
collections of identical membership; only the enumeration order of the
returned list may differ. -/
theorem dependencies_deterministic_membership (pyfile : Path)
    (extract : Except Unit (Finset Path)) (dd : Path → Finset Path)
    (abspath : Bool) (fuel : Nat) (r : Finset Path) (l1 l2 : List Path)
    (h : dependencies pyfile extract dd abspath fuel = some (Except.ok r))
    (h1 : l1.toFinset = r) (h2 : l2.toFinset = r) :
    ∀ x : Path, x ∈ l1 ↔ x ∈ l2 := by
  intro x
  rw [← List.mem_toFinset, ← List.mem_toFinset, h1, h2]

theorem dependencies_deterministic_membership_witness :
    (["r", "a.py"] : Path) ∈ [(["r", "a.py"] : Path), ["r", "b.py"]]
      ↔ (["r", "a.py"] : Path) ∈ [(["r", "b.py"] : Path), ["r", "a.py"]] :=
  dependencies_deterministic_membership ["r", "m.py"]
    (Except.ok {["r", "a.py"], ["r", "b.py"]}) (fun _ => ∅) true 3
    {["r", "a.py"], ["r", "b.py"]}
    [["r", "a.py"], ["r", "b.py"]] [["r", "b.py"], ["r", "a.py"]]
    (by decide) (by decide) (by decide) ["r", "a.py"]

/-- Claim C9: through the `run_once` wrapper, the wrapped function is
invoked on the first call only: a sequence of `n + 1` calls starting from
the initial state returns the function's result first and `None` on every
later call, leaves `has_run` true, and invokes the wrapped function
exactly once. -/
theorem run_once_invokes_once {ρ : Type} (f : Unit → ρ) (n : Nat) :
    run_once_trace f (n + 1) false
      = (some (f ()) :: List.replicate n none, true, 1) := by
  simp [run_once_trace, run_once_step, run_once_trace_spent]

/-- Claim C10: calling `redirect_stdstream` with a stream name other than
`stdout` or `stderr`, or a stream type other than `t` or `b`, raises a
`ValueError` before any redirection takes place: the stream targets are
unchanged and no temporary file or saved descriptor is ever created. -/
theorem redirect_invalid_args_no_effect (s : SysStreams)
    (istream stream_type : String) (body_raises : Bool)
    (h : ¬ (istream = "stdout" ∨ istream = "stderr")
        ∨ ¬ (stream_type = "t" ∨ stream_type = "b")) :
    redirect_stdstream istream stream_type body_raises s
      = { streams := s, tfile_open := false, saved_open := false,
          outcome := RSOutcome.valueError } := by
  rcases h with h | h
  · rw [redirect_stdstream, if_pos h]
  · by_cases hi : istream = "stdout" ∨ istream = "stderr"
    · rw [redirect_stdstream, if_neg (not_not_intro hi), if_pos h]
    · rw [redirect_stdstream, if_pos hi]

theorem redirect_invalid_args_no_effect_witness :
    redirect_stdstream "none" "t" false
        { stdout_target := StreamTarget.console 1,
          stderr_target := StreamTarget.console 2 }
      = { streams := { stdout_target := StreamTarget.console 1,
                       stderr_target := StreamTarget.console 2 },
          tfile_open := false, saved_open := false,
          outcome := RSOutcome.valueError } :=
  redirect_invalid_args_no_effect _ _ _ _ (Or.inl (by decide))

end Claims

end Pyscripts
